import Mathlib

/-!
Shallow embedding of `src/awesomeanimator.py` (AwesomeAnimator).

Numeric payloads are modelled with exact rationals (ℚ). Python operations
that can raise (out-of-range indexing, writing `data[-1]` on an empty
array) are modelled with `Option`: `none` is an uncaught exception.

Structure of the source:
- `PlotAnimator` (the spec's TimeSeriesSurface): per-slot rolling buffer of
  length `max_history`, initialised to zeros; `update` rolls the buffer
  left by one, writes the new value at the end, and rescales the y-axis of
  the updated slot.
- `ImageAnimator` (the spec's ImageSurface): per-slot last `imshow`-n
  array, initialised to a 1x1 zero array, with an optional per-slot
  colour-map list.
- `AwesomeAnimator` (the spec's AsyncRenderer): a FIFO queue of messages,
  `push` enqueues, `run` initialises every animator then loops: drain the
  queue dispatching each message, redraw every figure, pause `0.0001`,
  sleep `interval`.
-/

/-- Payload of a message: a scalar (for `PlotAnimator.update`) or a 2-D
array (for `ImageAnimator.update`), exactly the two shapes the demo pushes. -/
inductive Payload where
  | scalar : ℚ → Payload
  | array : List (List ℚ) → Payload
deriving DecidableEq

/-- Model of `Msg = namedtuple("Msg", ["animator_index", "plot_index", "data"])`. -/
structure Msg where
  animator_index : ℕ
  plot_index : ℕ
  data : Payload
deriving DecidableEq

/-- Model of `np.roll(l, -1)`: shift every element one place left, the first element
wraps around to the end. -/
def np_roll_neg1 (l : List ℚ) : List ℚ :=
  l.drop 1 ++ l.take 1

/-- Model of `l[-1] = v`: write `v` at the last position. On an empty array numpy
raises `IndexError`, modelled as `none`. -/
def set_last (l : List ℚ) (v : ℚ) : Option (List ℚ) :=
  if l.isEmpty then none else some (l.dropLast ++ [v])

/-- Model of `np.min` over a list (the call sites only ever pass nonempty lists;
`np.min` of an empty array would raise, the `[]` case is junk). -/
def np_min : List ℚ → ℚ
  | [] => 0
  | x :: xs => xs.foldl min x

/-- Model of `np.max` over a list (same remark as `np_min`). -/
def np_max : List ℚ → ℚ
  | [] => 0
  | x :: xs => xs.foldl max x

/-- State of a `PlotAnimator` after `init_animation`: the constructor
arguments, the per-slot data buffers, and the per-slot y-axis range last
passed to `set_ylim` (`none` before the first `update` of the slot, when
the axis still has the library default range). -/
structure PlotAnimatorState where
  nrows : ℕ
  ncols : ℕ
  max_history : ℕ
  data : List (List ℚ)
  ylim : List (Option (ℚ × ℚ))
deriving DecidableEq

/-- Model of `PlotAnimator.init_animation`: `nrows*ncols` slots, each buffer
`np.zeros(max_history)`; no `set_ylim` has happened yet. -/
def PlotAnimator.init_animation (nrows ncols max_history : ℕ) : PlotAnimatorState :=
  { nrows := nrows
    ncols := ncols
    max_history := max_history
    data := List.replicate (nrows * ncols) (List.replicate max_history 0)
    ylim := List.replicate (nrows * ncols) none }

/-- Model of `PlotAnimator.update(plot_index, data)`:
`self.data[plot_index] = np.roll(self.data[plot_index], -1)`;
`self.data[plot_index][-1] = data`; then
`set_ylim(minimum - .1*abs(vertlen), maximum + .1*abs(vertlen))` with
`minimum, maximum = np.min(...), np.max(...)` and `vertlen = maximum - minimum`
over the updated buffer. Out-of-range `plot_index` raises (`none`). -/
def PlotAnimatorState.update (s : PlotAnimatorState) (plot_index : ℕ) (data : ℚ) :
    Option PlotAnimatorState :=
  match s.data[plot_index]? with
  | none => none
  | some buf =>
    match set_last (np_roll_neg1 buf) data with
    | none => none
    | some newBuf =>
      let minimum := np_min newBuf
      let maximum := np_max newBuf
      let vertlen := maximum - minimum
      some { s with
              data := s.data.set plot_index newBuf
              ylim := s.ylim.set plot_index
                (some (minimum - (1/10) * |vertlen|, maximum + (1/10) * |vertlen|)) }

/-- Apply a sequence of scalar updates to one slot of a `PlotAnimator`,
stopping with `none` if any single update raises. -/
def applyScalars (i : ℕ) : PlotAnimatorState → List ℚ → Option PlotAnimatorState
  | s, [] => some s
  | s, v :: vs =>
    match s.update i v with
    | none => none
    | some s' => applyScalars i s' vs

/-- Model of `np.zeros((1, 1))`. -/
def zeros1x1 : List (List ℚ) := [[0]]

/-- State of an `ImageAnimator` after `init_animation`: the constructor
arguments and, per axis, the last array passed to `imshow` on that axis
together with the `cmap` argument used (`none` inside the pair means no
`cmap` keyword; `none` for the whole entry means no `imshow` has happened
on that axis). -/
structure ImageAnimatorState where
  nrows : ℕ
  ncols : ℕ
  cmaps : Option (List String)
  shown : List (Option (List (List ℚ) × Option String))
deriving DecidableEq

/-- Model of `ImageAnimator.init_animation`: `nrows*ncols` axes; with `cmaps == None`
every axis gets `imshow(np.zeros((1, 1)))`; otherwise
`for ax, cmap in zip(self.axes, self.cmaps): ax.imshow(np.zeros((1, 1)), cmap=cmap)` —
`zip` stops at the shorter list, so axes beyond `len(cmaps)` show nothing. -/
def ImageAnimator.init_animation (nrows ncols : ℕ) (cmaps : Option (List String)) :
    ImageAnimatorState :=
  { nrows := nrows
    ncols := ncols
    cmaps := cmaps
    shown :=
      match cmaps with
      | none => List.replicate (nrows * ncols) (some (zeros1x1, none))
      | some cs =>
        (List.range (nrows * ncols)).map fun i =>
          match cs[i]? with
          | none => none
          | some c => some (zeros1x1, some c) }

/-- Model of `ImageAnimator.update(plot_index, data)`:
`self.axes[plot_index].imshow(data)` when `cmaps == None`, else
`self.axes[plot_index].imshow(data, cmap=self.cmaps[plot_index])`.
Out-of-range `plot_index` (into `axes`, or into `cmaps`) raises (`none`). -/
def ImageAnimatorState.update (s : ImageAnimatorState) (plot_index : ℕ)
    (data : List (List ℚ)) : Option ImageAnimatorState :=
  match s.shown[plot_index]? with
  | none => none
  | some _ =>
    match s.cmaps with
    | none => some { s with shown := s.shown.set plot_index (some (data, none)) }
    | some cs =>
      match cs[plot_index]? with
      | none => none
      | some c => some { s with shown := s.shown.set plot_index (some (data, some c)) }

/-- Constructor arguments of the two `Animator` subclasses. -/
inductive AnimatorSpec where
  | plot : ℕ → ℕ → ℕ → AnimatorSpec
  | image : ℕ → ℕ → Option (List String) → AnimatorSpec
deriving DecidableEq

/-- Runtime state of an `Animator` after `init_animation`. -/
inductive AnimatorState where
  | plot : PlotAnimatorState → AnimatorState
  | image : ImageAnimatorState → AnimatorState
deriving DecidableEq

/-- Dispatch of `animator.init_animation()` on the subclass. -/
def AnimatorSpec.init_animation : AnimatorSpec → AnimatorState
  | AnimatorSpec.plot nr nc mh => AnimatorState.plot (PlotAnimator.init_animation nr nc mh)
  | AnimatorSpec.image nr nc cm => AnimatorState.image (ImageAnimator.init_animation nr nc cm)

/-- Dispatch of `animator.update(plot_index, data)` on the subclass. A
payload of the wrong shape (array into a line plot, scalar into `imshow`)
raises in numpy/matplotlib, modelled as `none`. -/
def AnimatorState.update (a : AnimatorState) (plot_index : ℕ) (data : Payload) :
    Option AnimatorState :=
  match a, data with
  | AnimatorState.plot s, Payload.scalar v => (s.update plot_index v).map AnimatorState.plot
  | AnimatorState.image s, Payload.array d => (s.update plot_index d).map AnimatorState.image
  | AnimatorState.plot _, Payload.array _ => none
  | AnimatorState.image _, Payload.scalar _ => none

/-- Model of `self.animators[msg.animator_index].update(msg.plot_index, msg.data)`:
one dispatch of the drain loop body; `none` is an uncaught exception
(out-of-range `animator_index` included). -/
def applyMsg (sts : List AnimatorState) (m : Msg) : Option (List AnimatorState) :=
  match sts[m.animator_index]? with
  | none => none
  | some a =>
    match a.update m.plot_index m.data with
    | none => none
    | some a' => some (sts.set m.animator_index a')

/-- State of the `AwesomeAnimator` process object: the configured
animators, the `mp.Queue` contents (front of the list = next `get`), and
the interval. -/
structure AwesomeAnimatorProc where
  animators : List AnimatorSpec
  q : List Msg
  interval : ℚ
deriving DecidableEq

/-- Model of `AwesomeAnimator.push(animator_index, plot_index, data)`: build the
`Msg` and `self.q.put(msg)` — no validation of any argument, never fails. -/
def AwesomeAnimator.push (r : AwesomeAnimatorProc) (animator_index plot_index : ℕ)
    (data : Payload) : AwesomeAnimatorProc :=
  { r with q := r.q ++ [⟨animator_index, plot_index, data⟩] }

/-- A sequence of completed `push` calls, in completion order. -/
def pushAll (r : AwesomeAnimatorProc) : List Msg → AwesomeAnimatorProc
  | [] => r
  | m :: ms => pushAll (AwesomeAnimator.push r m.animator_index m.plot_index m.data) ms

/-- Observable events of `AwesomeAnimator.run`, in program order:
`inited i` = `self.animators[i].init_animation()`;
`dispatched m` = `self.animators[m.animator_index].update(m.plot_index, m.data)`;
`drew i` = `self.animators[i].fig.canvas.draw()`;
`paused d` = `plt.pause(d)`; `slept d` = `time.sleep(d)`. -/
inductive Event where
  | inited : ℕ → Event
  | dispatched : Msg → Event
  | drew : ℕ → Event
  | paused : ℚ → Event
  | slept : ℚ → Event
deriving DecidableEq

/-- Result of draining the queue: the animator states and trace of
successful dispatches when the exception (if any) is raised, and whether
the drain completed without an exception. -/
structure DrainResult where
  states : List AnimatorState
  trace : List Event
  ok : Bool
deriving DecidableEq

/-- The inner loop `while not self.q.empty(): msg = self.q.get(); ...update...`,
over a snapshot of the queue. An exception in a dispatch propagates out of
`run`, leaving the earlier messages already applied. -/
def drainQueue : List Msg → List AnimatorState → DrainResult
  | [], sts => ⟨sts, [], true⟩
  | m :: ms, sts =>
    match applyMsg sts m with
    | none => ⟨sts, [], false⟩
    | some sts' =>
      let r := drainQueue ms sts'
      ⟨r.states, Event.dispatched m :: r.trace, r.ok⟩

/-- The events of `for animator in self.animators: animator.init_animation()`:
the prefix of `run` before the `while True` loop. -/
def run_initEvents (animators : List AnimatorSpec) : List Event :=
  (List.range animators.length).map Event.inited

/-- The events of one iteration of `while True`: dispatch every queued
message in FIFO order, then `fig.canvas.draw()` for every animator, then
`plt.pause(.0001)`, then `time.sleep(self.interval)`. -/
def run_cycleEvents (numAnimators : ℕ) (interval : ℚ) (q : List Msg) : List Event :=
  q.map Event.dispatched ++ (List.range numAnimators).map Event.drew
    ++ [Event.paused (1/10000), Event.slept interval]

/-- The event trace of `run` after finitely many loop iterations, where
`cycles` lists the messages found queued at the start of each iteration.
The `while True` loop has no exit: every further iteration only extends
the trace. -/
def run_trace (animators : List AnimatorSpec) (interval : ℚ)
    (cycles : List (List Msg)) : List Event :=
  run_initEvents animators
    ++ (cycles.map (run_cycleEvents animators.length interval)).flatten

/-! ## Helper lemmas about the embedded operations -/

/-- Rolling then writing the last position, on a nonempty buffer, drops the
oldest sample and appends the new one. -/
theorem set_last_np_roll (l : List ℚ) (v : ℚ) (h : l ≠ []) :
    set_last (np_roll_neg1 l) v = some (l.drop 1 ++ [v]) := by
  cases l with
  | nil => exact absurd rfl h
  | cons a t => simp [np_roll_neg1, set_last]

/-- Forward characterisation of a successful `PlotAnimator.update`. -/
theorem PlotAnimatorState.update_some (s : PlotAnimatorState) (i : ℕ) (v : ℚ)
    (buf : List ℚ) (hd : s.data[i]? = some buf) (hne : buf ≠ []) :
    ∃ s', s.update i v = some s' ∧
      s'.data = s.data.set i (buf.drop 1 ++ [v]) ∧
      s'.ylim = s.ylim.set i
        (some (np_min (buf.drop 1 ++ [v])
                  - (1/10) * |np_max (buf.drop 1 ++ [v]) - np_min (buf.drop 1 ++ [v])|,
               np_max (buf.drop 1 ++ [v])
                  + (1/10) * |np_max (buf.drop 1 ++ [v]) - np_min (buf.drop 1 ++ [v])|)) := by
  simp only [PlotAnimatorState.update, hd, set_last_np_roll buf v hne]
  exact ⟨_, rfl, rfl, rfl⟩

/-- Inversion of a successful `PlotAnimator.update`. -/
theorem PlotAnimatorState.update_inv_plot {s : PlotAnimatorState} {i : ℕ} {v : ℚ}
    {s' : PlotAnimatorState} (h : s.update i v = some s') :
    ∃ buf, s.data[i]? = some buf ∧ buf ≠ [] ∧
      s'.data = s.data.set i (buf.drop 1 ++ [v]) ∧
      s'.ylim = s.ylim.set i
        (some (np_min (buf.drop 1 ++ [v])
                  - (1/10) * |np_max (buf.drop 1 ++ [v]) - np_min (buf.drop 1 ++ [v])|,
               np_max (buf.drop 1 ++ [v])
                  + (1/10) * |np_max (buf.drop 1 ++ [v]) - np_min (buf.drop 1 ++ [v])|)) := by
  cases hd : s.data[i]? with
  | none =>
    simp only [PlotAnimatorState.update, hd] at h
    exact Option.noConfusion h
  | some buf =>
    by_cases hne : buf = []
    · subst hne
      simp [PlotAnimatorState.update, hd, np_roll_neg1, set_last] at h
    · obtain ⟨s'', h1, h2, h3⟩ := PlotAnimatorState.update_some s i v buf hd hne
      rw [h1] at h
      cases Option.some.inj h
      exact ⟨buf, rfl, hne, h2, h3⟩

theorem foldl_min_le_init (t : List ℚ) (a : ℚ) : t.foldl min a ≤ a := by
  induction t generalizing a with
  | nil => simp
  | cons b t ih => exact le_trans (ih (min a b)) (min_le_left a b)

theorem foldl_min_le_mem (t : List ℚ) (a x : ℚ) (hx : x ∈ t) : t.foldl min a ≤ x := by
  induction t generalizing a with
  | nil => cases hx
  | cons b t ih =>
    rcases List.mem_cons.mp hx with h | h
    · subst h
      exact le_trans (foldl_min_le_init t (min a x)) (min_le_right a x)
    · exact ih (min a b) h

theorem init_le_foldl_max (t : List ℚ) (a : ℚ) : a ≤ t.foldl max a := by
  induction t generalizing a with
  | nil => simp
  | cons b t ih => exact le_trans (le_max_left a b) (ih (max a b))

theorem mem_le_foldl_max (t : List ℚ) (a x : ℚ) (hx : x ∈ t) : x ≤ t.foldl max a := by
  induction t generalizing a with
  | nil => cases hx
  | cons b t ih =>
    rcases List.mem_cons.mp hx with h | h
    · subst h
      exact le_trans (le_max_right a x) (init_le_foldl_max t (max a x))
    · exact ih (max a b) h

/-- The value of `np_min` is a lower bound of the list. -/
theorem np_min_le_of_mem {l : List ℚ} {x : ℚ} (hx : x ∈ l) : np_min l ≤ x := by
  cases l with
  | nil => cases hx
  | cons a t =>
    rcases List.mem_cons.mp hx with h | h
    · subst h
      exact foldl_min_le_init t x
    · exact foldl_min_le_mem t a x h

/-- The value of `np_max` is an upper bound of the list. -/
theorem le_np_max_of_mem {l : List ℚ} {x : ℚ} (hx : x ∈ l) : x ≤ np_max l := by
  cases l with
  | nil => cases hx
  | cons a t =>
    rcases List.mem_cons.mp hx with h | h
    · subst h
      exact init_le_foldl_max t x
    · exact mem_le_foldl_max t a x h

theorem replicate_drop (a : ℚ) : ∀ (n k : ℕ), (List.replicate n a).drop k = List.replicate (n - k) a
  | n, 0 => by simp
  | 0, k + 1 => by simp
  | n + 1, k + 1 => by
    rw [List.replicate_succ, List.drop_succ_cons, replicate_drop a n k, Nat.succ_sub_succ]

/-- One update step on the tracked slot: the buffer becomes one shorter on
the left, one longer on the right. -/
theorem applyScalars_spec (i : ℕ) (vs : List ℚ) :
    ∀ (s : PlotAnimatorState) (buf : List ℚ), s.data[i]? = some buf → buf ≠ [] →
      ∃ s', applyScalars i s vs = some s' ∧
        s'.data[i]? = some ((buf ++ vs).drop vs.length) := by
  induction vs with
  | nil =>
    intro s buf hd _
    exact ⟨s, rfl, by simpa using hd⟩
  | cons v vs ih =>
    intro s buf hd hne
    have hlt : i < s.data.length := (List.getElem?_eq_some_iff.mp hd).1
    obtain ⟨s1, hupd, hdata, _⟩ := PlotAnimatorState.update_some s i v buf hd hne
    have hd1 : s1.data[i]? = some (buf.drop 1 ++ [v]) := by
      rw [hdata]
      exact List.getElem?_set_self hlt
    have hne1 : buf.drop 1 ++ [v] ≠ [] := by simp
    obtain ⟨s', happ, hbuf⟩ := ih s1 (buf.drop 1 ++ [v]) hd1 hne1
    refine ⟨s', ?_, ?_⟩
    · simp only [applyScalars, hupd]
      exact happ
    · rw [hbuf]
      congr 1
      cases buf with
      | nil => exact absurd rfl hne
      | cons b t => simp [List.length_cons]

/-- The 10%-padded range contains every element of the list. -/
theorem autorange_bounds (l : List ℚ) (x : ℚ) (hx : x ∈ l) :
    np_min l - (1/10) * |np_max l - np_min l| ≤ x ∧
      x ≤ np_max l + (1/10) * |np_max l - np_min l| := by
  have h1 := np_min_le_of_mem hx
  have h2 := le_np_max_of_mem hx
  have h3 : (0:ℚ) ≤ (1/10) * |np_max l - np_min l| := by positivity
  constructor <;> linarith

/-! ## Claim theorems -/

/-- C1: for a TimeSeriesSurface with `maxHistory = N` (N positive, since a
zero-length numpy buffer cannot be written at position `-1`), after any
sequence of `k` scalar updates to an in-range slot the buffer equals the
last `N` pushed values in push order when `k ≥ N`, and `N - k` zeros
followed by the pushed values in order when `k < N`. -/
theorem rolling_buffer_property (nrows ncols N i : ℕ) (vs : List ℚ)
    (hN : 0 < N) (hi : i < nrows * ncols) :
    ∃ s', applyScalars i (PlotAnimator.init_animation nrows ncols N) vs = some s' ∧
      (N ≤ vs.length → s'.data[i]? = some (vs.drop (vs.length - N))) ∧
      (vs.length < N → s'.data[i]? = some (List.replicate (N - vs.length) 0 ++ vs)) := by
  have hd : (PlotAnimator.init_animation nrows ncols N).data[i]?
      = some (List.replicate N (0:ℚ)) := by
    simp [PlotAnimator.init_animation, List.getElem?_replicate_of_lt, hi]
  have hne : List.replicate N (0:ℚ) ≠ [] := by
    intro hcon
    have := congrArg List.length hcon
    simp at this
    omega
  obtain ⟨s', happ, hbuf⟩ := applyScalars_spec i vs _ _ hd hne
  refine ⟨s', happ, ?_, ?_⟩
  · intro hk
    rw [hbuf]
    congr 1
    rw [List.drop_append_eq_append_drop, replicate_drop]
    have h0 : N - vs.length = 0 := by omega
    simp [h0]
  · intro hk
    rw [hbuf]
    congr 1
    rw [List.drop_append_of_le_length (by simp; omega), replicate_drop]

/-- Witness for C1, the spec's scenario: `maxHistory = 3`, pushes
`1.0, 2.0, 3.0, 4.0`, buffer ends as `[2.0, 3.0, 4.0]`. -/
theorem rolling_buffer_property_witness :
    ∃ s', applyScalars 0 (PlotAnimator.init_animation 1 1 3) [1, 2, 3, 4] = some s' ∧
      s'.data[0]? = some [(2:ℚ), 3, 4] := by
  obtain ⟨s', happ, hge, _⟩ :=
    rolling_buffer_property 1 1 3 0 [1, 2, 3, 4] (by decide) (by decide)
  refine ⟨s', happ, ?_⟩
  simpa using hge (by decide)

/-- C2: after every successful update, the display range set for the
updated slot is exactly `[min - 0.1*|max-min|, max + 0.1*|max-min|]` over
the current buffer, it contains every buffer value, and `lo ≤ hi` holds
also when `max = min` (the model computes in exact rational arithmetic, so
no NaN can arise for the finite inputs being modelled). -/
theorem range_property (s : PlotAnimatorState) (i : ℕ) (v : ℚ)
    (s' : PlotAnimatorState) (hlen : s.ylim.length = s.data.length)
    (h : s.update i v = some s') :
    ∃ (buf : List ℚ) (lo hi : ℚ),
      s'.data[i]? = some buf ∧ s'.ylim[i]? = some (some (lo, hi)) ∧
      lo = np_min buf - (1/10) * |np_max buf - np_min buf| ∧
      hi = np_max buf + (1/10) * |np_max buf - np_min buf| ∧
      (∀ x ∈ buf, lo ≤ x ∧ x ≤ hi) ∧ lo ≤ hi := by
  obtain ⟨buf, hd, hne, hdata, hylim⟩ := PlotAnimatorState.update_inv_plot h
  have hlt : i < s.data.length := (List.getElem?_eq_some_iff.mp hd).1
  have hlt2 : i < s.ylim.length := by omega
  have hv : v ∈ buf.drop 1 ++ [v] := by simp
  refine ⟨buf.drop 1 ++ [v], _, _, ?_, ?_, rfl, rfl, ?_, ?_⟩
  · rw [hdata]
    exact List.getElem?_set_self hlt
  · rw [hylim]
    exact List.getElem?_set_self hlt2
  · intro x hx
    exact autorange_bounds _ x hx
  · obtain ⟨hlo, hhi⟩ := autorange_bounds _ v hv
    linarith

/-- Witness for C2 at a concrete update. -/
theorem range_property_witness :
    ∃ s', (PlotAnimator.init_animation 1 1 3).update 0 5 = some s' ∧
      ∃ (buf : List ℚ) (lo hi : ℚ),
        s'.data[0]? = some buf ∧ s'.ylim[0]? = some (some (lo, hi)) ∧
        lo = np_min buf - (1/10) * |np_max buf - np_min buf| ∧
        hi = np_max buf + (1/10) * |np_max buf - np_min buf| ∧
        (∀ x ∈ buf, lo ≤ x ∧ x ≤ hi) ∧ lo ≤ hi := by
  obtain ⟨s0, hupd, _, _⟩ :=
    PlotAnimatorState.update_some (PlotAnimator.init_animation 1 1 3) 0 5
      (List.replicate 3 0) (by rfl) (by decide)
  exact ⟨s0, hupd, range_property _ 0 5 s0 rfl hupd⟩

/-- C7: a successful update of one slot leaves every other slot's buffer
and display range unchanged. -/
theorem update_frame_effect (s : PlotAnimatorState) (i j : ℕ) (v : ℚ)
    (s' : PlotAnimatorState) (h : s.update i v = some s') (hij : j ≠ i) :
    s'.data[j]? = s.data[j]? ∧ s'.ylim[j]? = s.ylim[j]? := by
  obtain ⟨buf, hd, hne, hdata, hylim⟩ := PlotAnimatorState.update_inv_plot h
  constructor
  · rw [hdata]
    exact List.getElem?_set_ne (Ne.symm hij)
  · rw [hylim]
    exact List.getElem?_set_ne (Ne.symm hij)

/-- Witness for C7: updating slot 0 of a 1x2 plot surface leaves slot 1
untouched. -/
theorem update_frame_effect_witness :
    ∃ s', (PlotAnimator.init_animation 1 2 3).update 0 5 = some s' ∧
      s'.data[1]? = (PlotAnimator.init_animation 1 2 3).data[1]? ∧
      s'.ylim[1]? = (PlotAnimator.init_animation 1 2 3).ylim[1]? := by
  obtain ⟨s0, hupd, _, _⟩ :=
    PlotAnimatorState.update_some (PlotAnimator.init_animation 1 2 3) 0 5
      (List.replicate 3 0) (by rfl) (by decide)
  exact ⟨s0, hupd, update_frame_effect _ 0 1 5 s0 hupd (by decide)⟩

/-- C9: after `init_animation` the slot count is exactly `nrows*ncols` and
every buffer has length exactly `max_history`; every successful update
preserves the slot count and every buffer's length. -/
theorem shape_invariant (nrows ncols N : ℕ) :
    ((PlotAnimator.init_animation nrows ncols N).data.length = nrows * ncols ∧
      ∀ (j : ℕ) (buf : List ℚ),
        (PlotAnimator.init_animation nrows ncols N).data[j]? = some buf →
        buf.length = N) ∧
    ∀ (s : PlotAnimatorState) (i : ℕ) (v : ℚ) (s' : PlotAnimatorState),
      s.update i v = some s' →
      s'.data.length = s.data.length ∧
      ∀ (j : ℕ) (buf' : List ℚ), s'.data[j]? = some buf' →
        ∃ buf, s.data[j]? = some buf ∧ buf'.length = buf.length := by
  refine ⟨⟨by simp [PlotAnimator.init_animation], ?_⟩, ?_⟩
  · intro j buf hj
    simp only [PlotAnimator.init_animation] at hj
    rw [List.getElem?_replicate] at hj
    split at hj
    · cases Option.some.inj hj
      simp
    · exact Option.noConfusion hj
  · intro s i v s' h
    obtain ⟨buf, hd, hne, hdata, hylim⟩ := PlotAnimatorState.update_inv_plot h
    have hlt : i < s.data.length := (List.getElem?_eq_some_iff.mp hd).1
    refine ⟨by rw [hdata]; simp, ?_⟩
    intro j buf' hj
    by_cases hji : j = i
    · subst hji
      rw [hdata, List.getElem?_set_self hlt] at hj
      cases Option.some.inj hj
      refine ⟨buf, hd, ?_⟩
      have hpos : 0 < buf.length := List.length_pos.mpr hne
      have hl : (buf.drop 1 ++ [v]).length = buf.length - 1 + 1 := by simp
      omega
    · rw [hdata, List.getElem?_set_ne (Ne.symm hji)] at hj
      exact ⟨buf', hj, rfl⟩

/-- Witness for C9 at a concrete surface and update. -/
theorem shape_invariant_witness :
    (PlotAnimator.init_animation 1 2 3).data.length = 1 * 2 ∧
    ∃ s', (PlotAnimator.init_animation 1 2 3).update 0 5 = some s' ∧
      s'.data.length = (PlotAnimator.init_animation 1 2 3).data.length := by
  obtain ⟨⟨hlen, _⟩, hupd⟩ := shape_invariant 1 2 3
  obtain ⟨s0, h0, _, _⟩ :=
    PlotAnimatorState.update_some (PlotAnimator.init_animation 1 2 3) 0 5
      (List.replicate 3 0) (by rfl) (by decide)
  obtain ⟨hl, _⟩ := hupd _ 0 5 s0 h0
  exact ⟨hlen, s0, h0, hl⟩

/-- Inversion of a successful `ImageAnimator.update`. -/
theorem ImageAnimatorState.update_inv_image {s : ImageAnimatorState} {i : ℕ}
    {d : List (List ℚ)} {s' : ImageAnimatorState} (h : s.update i d = some s') :
    i < s.shown.length ∧ s'.cmaps = s.cmaps ∧
      ∃ st : Option String, s'.shown = s.shown.set i (some (d, st)) ∧
        ((s.cmaps = none ∧ st = none) ∨
          ∃ cs c, s.cmaps = some cs ∧ cs[i]? = some c ∧ st = some c) := by
  cases hsh : s.shown[i]? with
  | none =>
    simp only [ImageAnimatorState.update, hsh] at h
    exact Option.noConfusion h
  | some e =>
    have hlt : i < s.shown.length := (List.getElem?_eq_some_iff.mp hsh).1
    cases hcm : s.cmaps with
    | none =>
      simp only [ImageAnimatorState.update, hsh, hcm] at h
      cases Option.some.inj h
      exact ⟨hlt, rfl, none, rfl, Or.inl ⟨rfl, rfl⟩⟩
    | some cs =>
      cases hc : cs[i]? with
      | none =>
        simp only [ImageAnimatorState.update, hsh, hcm, hc] at h
        exact Option.noConfusion h
      | some c =>
        simp only [ImageAnimatorState.update, hsh, hcm, hc] at h
        cases Option.some.inj h
        exact ⟨hlt, rfl, some c, rfl, Or.inr ⟨cs, c, rfl, hc, rfl⟩⟩

/-- C4: pushing array A then array B to the same slot of an ImageSurface
leaves the slot showing exactly B; the shown content and style are
determined by B and the colour-map configuration alone, with no
contribution from A. -/
theorem replace_not_accumulate (s : ImageAnimatorState) (i : ℕ)
    (A B : List (List ℚ)) (s1 s2 : ImageAnimatorState)
    (h1 : s.update i A = some s1) (h2 : s1.update i B = some s2) :
    ∃ st : Option String, s2.shown[i]? = some (some (B, st)) ∧
      ((s.cmaps = none ∧ st = none) ∨
        ∃ cs c, s.cmaps = some cs ∧ cs[i]? = some c ∧ st = some c) := by
  obtain ⟨hlt1, hcm1, st1, hsh1, hst1⟩ := ImageAnimatorState.update_inv_image h1
  obtain ⟨hlt2, hcm2, st2, hsh2, hst2⟩ := ImageAnimatorState.update_inv_image h2
  rw [hcm1] at hst2
  refine ⟨st2, ?_, hst2⟩
  rw [hsh2]
  exact List.getElem?_set_self hlt2

/-- Witness for C4, the spec's scenario: ImageSurface(1,1), a 2x2 zero
array then a 2x2 ones array; the slot shows the all-ones array. -/
theorem replace_not_accumulate_witness :
    ∃ s1 s2 : ImageAnimatorState,
      (ImageAnimator.init_animation 1 1 none).update 0 [[0, 0], [0, 0]] = some s1 ∧
      s1.update 0 [[1, 1], [1, 1]] = some s2 ∧
      ∃ st : Option String, s2.shown[0]? = some (some ([[1, 1], [1, 1]], st)) := by
  have h1 : (ImageAnimator.init_animation 1 1 none).update 0 [[0, 0], [0, 0]]
      = some { nrows := 1, ncols := 1, cmaps := none,
               shown := [some ([[0, 0], [0, 0]], none)] } := by rfl
  have h2 : ({ nrows := 1, ncols := 1, cmaps := none,
               shown := [some ([[0, 0], [0, 0]], none)] } : ImageAnimatorState).update 0
        [[1, 1], [1, 1]]
      = some { nrows := 1, ncols := 1, cmaps := none,
               shown := [some ([[1, 1], [1, 1]], none)] } := by rfl
  obtain ⟨st, hshow, _⟩ := replace_not_accumulate _ 0 [[0, 0], [0, 0]] [[1, 1], [1, 1]] _ _ h1 h2
  exact ⟨_, _, h1, h2, st, hshow⟩

/-- C8: with a colour-map list whose length equals the slot count, every
slot is initialised to the 1x1 zero array rendered with `cmaps[slot]`, and
every successful update renders the new data with `cmaps[slot]`; with no
colour-map list, every slot is initialised to the 1x1 zero array with the
default style and every successful update renders with the default style. -/
theorem image_cmap_property (nrows ncols : ℕ) (cs : List String) :
    (cs.length = nrows * ncols →
      ∀ i : ℕ, i < nrows * ncols →
        ∃ c, cs[i]? = some c ∧
          (ImageAnimator.init_animation nrows ncols (some cs)).shown[i]?
            = some (some (zeros1x1, some c))) ∧
    (∀ (s : ImageAnimatorState) (i : ℕ) (d : List (List ℚ)) (s' : ImageAnimatorState),
      s.cmaps = some cs → s.update i d = some s' →
        ∃ c, cs[i]? = some c ∧ s'.shown[i]? = some (some (d, some c))) ∧
    (∀ i : ℕ, i < nrows * ncols →
      (ImageAnimator.init_animation nrows ncols none).shown[i]?
        = some (some (zeros1x1, none))) ∧
    (∀ (s : ImageAnimatorState) (i : ℕ) (d : List (List ℚ)) (s' : ImageAnimatorState),
      s.cmaps = none → s.update i d = some s' →
        s'.shown[i]? = some (some (d, none))) := by
  refine ⟨?_, ?_, ?_, ?_⟩
  · intro hlen i hi
    have hc : i < cs.length := by omega
    refine ⟨cs[i], List.getElem?_eq_getElem hc, ?_⟩
    simp [ImageAnimator.init_animation, List.getElem?_range hi,
      List.getElem?_eq_getElem hc]
  · intro s i d s' hcm h
    obtain ⟨hlt, _, st, hsh, hst⟩ := ImageAnimatorState.update_inv_image h
    rcases hst with ⟨hnone, _⟩ | ⟨cs', c, hsome, hc, hstc⟩
    · rw [hcm] at hnone
      exact Option.noConfusion hnone
    · rw [hcm] at hsome
      cases Option.some.inj hsome
      subst hstc
      refine ⟨c, hc, ?_⟩
      rw [hsh]
      exact List.getElem?_set_self hlt
  · intro i hi
    simp [ImageAnimator.init_animation, List.getElem?_replicate_of_lt hi]
  · intro s i d s' hcm h
    obtain ⟨hlt, _, st, hsh, hst⟩ := ImageAnimatorState.update_inv_image h
    rcases hst with ⟨_, hstnone⟩ | ⟨cs', c, hsome, _, _⟩
    · subst hstnone
      rw [hsh]
      exact List.getElem?_set_self hlt
    · rw [hcm] at hsome
      exact Option.noConfusion hsome

/-- Witness for C8 at a 1x1 surface with colour-map list of matching
length, and at a 1x1 surface without one. -/
theorem image_cmap_property_witness :
    (∃ c, (["RdBu"] : List String)[0]? = some c ∧
      (ImageAnimator.init_animation 1 1 (some ["RdBu"])).shown[0]?
        = some (some (zeros1x1, some c))) ∧
    (ImageAnimator.init_animation 1 1 none).shown[0]?
      = some (some (zeros1x1, none)) := by
  obtain ⟨h1, _, h3, _⟩ := image_cmap_property 1 1 ["RdBu"]
  exact ⟨h1 rfl 0 (by decide), h3 0 (by decide)⟩

/-- Completed pushes append to the queue in completion order. -/
theorem pushAll_q (ms : List Msg) : ∀ r : AwesomeAnimatorProc,
    (pushAll r ms).q = r.q ++ ms := by
  induction ms with
  | nil => intro r; simp [pushAll]
  | cons m ms ih =>
    intro r
    rw [pushAll, ih]
    simp [AwesomeAnimator.push]

/-- A drain that completes dispatches exactly the queued messages, in
queue order. -/
theorem drainQueue_ok_trace : ∀ (ms : List Msg) (sts : List AnimatorState),
    (drainQueue ms sts).ok = true →
    (drainQueue ms sts).trace = ms.map Event.dispatched := by
  intro ms
  induction ms with
  | nil => intro sts _; rfl
  | cons m ms ih =>
    intro sts h
    cases ha : applyMsg sts m with
    | none =>
      simp only [drainQueue, ha] at h
      exact Bool.noConfusion h
    | some sts' =>
      simp only [drainQueue, ha] at h ⊢
      rw [List.map_cons]
      exact congrArg (Event.dispatched m :: ·) (ih sts' h)

/-- C3: the queue after a sequence of completed pushes holds exactly those
messages in completion order, and a drain that completes dispatches
exactly one applyUpdate per pushed message, in exactly that order — one
global FIFO across all surfaces and slots. -/
theorem fifo_property (r : AwesomeAnimatorProc) (ms : List Msg)
    (sts : List AnimatorState) (h0 : r.q = []) :
    (pushAll r ms).q = ms ∧
    ((drainQueue (pushAll r ms).q sts).ok = true →
      (drainQueue (pushAll r ms).q sts).trace = ms.map Event.dispatched) := by
  have hq : (pushAll r ms).q = ms := by rw [pushAll_q, h0]; rfl
  refine ⟨hq, ?_⟩
  rw [hq]
  exact drainQueue_ok_trace ms sts

/-- Witness for C3: two surfaces, three pushes interleaved across them,
dispatched in exactly push order. -/
theorem fifo_property_witness :
    (pushAll ⟨[AnimatorSpec.plot 1 1 2, AnimatorSpec.image 1 1 none], [], 0⟩
        [⟨0, 0, Payload.scalar 1⟩, ⟨1, 0, Payload.array [[1]]⟩,
         ⟨0, 0, Payload.scalar 2⟩]).q
      = [⟨0, 0, Payload.scalar 1⟩, ⟨1, 0, Payload.array [[1]]⟩,
         ⟨0, 0, Payload.scalar 2⟩] ∧
    (drainQueue
        (pushAll ⟨[AnimatorSpec.plot 1 1 2, AnimatorSpec.image 1 1 none], [], 0⟩
          [⟨0, 0, Payload.scalar 1⟩, ⟨1, 0, Payload.array [[1]]⟩,
           ⟨0, 0, Payload.scalar 2⟩]).q
        [(AnimatorSpec.plot 1 1 2).init_animation,
         (AnimatorSpec.image 1 1 none).init_animation]).trace
      = [Event.dispatched ⟨0, 0, Payload.scalar 1⟩,
         Event.dispatched ⟨1, 0, Payload.array [[1]]⟩,
         Event.dispatched ⟨0, 0, Payload.scalar 2⟩] := by
  obtain ⟨h1, h2⟩ :=
    fifo_property ⟨[AnimatorSpec.plot 1 1 2, AnimatorSpec.image 1 1 none], [], 0⟩
      [⟨0, 0, Payload.scalar 1⟩, ⟨1, 0, Payload.array [[1]]⟩, ⟨0, 0, Payload.scalar 2⟩]
      [(AnimatorSpec.plot 1 1 2).init_animation,
       (AnimatorSpec.image 1 1 none).init_animation] rfl
  exact ⟨h1, h2 (by rfl)⟩

/-- C10: push validates nothing — for every animator index, slot index and
payload it appends the message to the queue and returns; a message with an
out-of-range animator index fails only at dispatch time inside the drain
loop, with every earlier-dequeued message already applied. -/
theorem push_no_validation :
    (∀ (r : AwesomeAnimatorProc) (ai pi : ℕ) (d : Payload),
      (AwesomeAnimator.push r ai pi d).q = r.q ++ [⟨ai, pi, d⟩]) ∧
    (∀ (sts : List AnimatorState) (good : List Msg) (bad : Msg) (rest : List Msg),
      (drainQueue good sts).ok = true →
      (drainQueue good sts).states.length ≤ bad.animator_index →
      drainQueue (good ++ bad :: rest) sts
        = ⟨(drainQueue good sts).states, (drainQueue good sts).trace, false⟩) := by
  refine ⟨fun r ai pi d => rfl, ?_⟩
  intro sts good
  induction good generalizing sts with
  | nil =>
    intro bad rest hok hlen
    simp only [drainQueue] at hlen ⊢
    have ha : applyMsg sts bad = none := by
      simp [applyMsg, List.getElem?_eq_none hlen]
    simp [drainQueue, ha]
  | cons m good ih =>
    intro bad rest hok hlen
    cases ha : applyMsg sts m with
    | none =>
      simp only [drainQueue, ha] at hok
      exact Bool.noConfusion hok
    | some sts' =>
      simp only [drainQueue, ha] at hok hlen ⊢
      simp only [List.append_eq]
      rw [ih sts' bad rest hok hlen]

/-- Witness for C10: a push with out-of-range indices still enqueues, and
a drain hitting an out-of-range animator index fails there with the
earlier message already applied. -/
theorem push_no_validation_witness :
    (AwesomeAnimator.push ⟨[], [], 0⟩ 7 9 (Payload.scalar 1)).q
      = [⟨7, 9, Payload.scalar 1⟩] ∧
    drainQueue [⟨0, 0, Payload.scalar 1⟩, ⟨5, 0, Payload.scalar 2⟩]
        [(AnimatorSpec.plot 1 1 2).init_animation]
      = ⟨(drainQueue [⟨0, 0, Payload.scalar 1⟩]
            [(AnimatorSpec.plot 1 1 2).init_animation]).states,
         (drainQueue [⟨0, 0, Payload.scalar 1⟩]
            [(AnimatorSpec.plot 1 1 2).init_animation]).trace, false⟩ := by
  obtain ⟨h1, h2⟩ := push_no_validation
  refine ⟨by simpa using h1 ⟨[], [], 0⟩ 7 9 (Payload.scalar 1), ?_⟩
  exact h2 [(AnimatorSpec.plot 1 1 2).init_animation]
    [⟨0, 0, Payload.scalar 1⟩] ⟨5, 0, Payload.scalar 2⟩ [] (by rfl) (by decide)

/-- No cycle event is an initialisation. -/
theorem inited_not_mem_cycleEvents (i n : ℕ) (interval : ℚ) (q : List Msg) :
    Event.inited i ∉ run_cycleEvents n interval q := by
  intro h
  simp [run_cycleEvents] at h

/-- No event of the loop phase is an initialisation. -/
theorem inited_not_mem_run_cycles (i n : ℕ) (interval : ℚ)
    (cycles : List (List Msg)) :
    Event.inited i ∉ (cycles.map (run_cycleEvents n interval)).flatten := by
  intro h
  rw [List.mem_flatten] at h
  obtain ⟨l, hl, hm⟩ := h
  rw [List.mem_map] at hl
  obtain ⟨q, _, rfl⟩ := hl
  exact inited_not_mem_cycleEvents i n interval q hm

/-- No event of the initialisation prefix is a dispatch. -/
theorem dispatched_not_mem_initEvents (m : Msg) (animators : List AnimatorSpec) :
    Event.dispatched m ∉ run_initEvents animators := by
  intro h
  simp [run_initEvents] at h

/-- C5: in every finite execution trace of run, each configured surface is
initialised exactly once; every initialisation sits in the prefix before
the loop starts and every dispatched update sits after it, so no
applyUpdate ever precedes an initialisation. -/
theorem init_before_update (animators : List AnimatorSpec) (interval : ℚ)
    (cycles : List (List Msg)) :
    (∀ i : ℕ, i < animators.length →
      (run_trace animators interval cycles).count (Event.inited i) = 1) ∧
    (∀ (k i : ℕ),
      (run_trace animators interval cycles)[k]? = some (Event.inited i) →
      k < animators.length) ∧
    (∀ (k : ℕ) (m : Msg),
      (run_trace animators interval cycles)[k]? = some (Event.dispatched m) →
      animators.length ≤ k) := by
  have hinj : Function.Injective Event.inited := fun a b hab => by injection hab
  have hlen : (run_initEvents animators).length = animators.length := by
    simp [run_initEvents]
  refine ⟨?_, ?_, ?_⟩
  · intro i hi
    rw [run_trace, List.count_append]
    have h1 : (run_initEvents animators).count (Event.inited i) = 1 := by
      apply List.count_eq_one_of_mem
      · exact (List.nodup_range _).map hinj
      · rw [run_initEvents, List.mem_map]
        exact ⟨i, List.mem_range.mpr hi, rfl⟩
    have h2 : ((cycles.map (run_cycleEvents animators.length interval)).flatten).count
        (Event.inited i) = 0 :=
      List.count_eq_zero.mpr (inited_not_mem_run_cycles i animators.length interval cycles)
    rw [h1, h2]
  · intro k i hk
    by_contra hge
    push_neg at hge
    rw [run_trace, List.getElem?_append_right (by omega)] at hk
    exact inited_not_mem_run_cycles i animators.length interval cycles (List.getElem?_mem hk)
  · intro k m hk
    by_contra hlt
    push_neg at hlt
    rw [run_trace, List.getElem?_append_left (by omega)] at hk
    exact dispatched_not_mem_initEvents m animators (List.getElem?_mem hk)

/-- Witness for C5 at a concrete configuration. -/
theorem init_before_update_witness :
    (run_trace [AnimatorSpec.plot 1 1 2, AnimatorSpec.image 1 1 none] 2
        [[⟨0, 0, Payload.scalar 1⟩]]).count (Event.inited 0) = 1 ∧
    (run_trace [AnimatorSpec.plot 1 1 2, AnimatorSpec.image 1 1 none] 2
        [[⟨0, 0, Payload.scalar 1⟩]]).count (Event.inited 1) = 1 := by
  obtain ⟨h1, _, _⟩ :=
    init_before_update [AnimatorSpec.plot 1 1 2, AnimatorSpec.image 1 1 none] 2
      [[⟨0, 0, Payload.scalar 1⟩]]
  exact ⟨h1 0 (by decide), h1 1 (by decide)⟩

/-- C6: one loop iteration is, in order: every queued message dispatched
in FIFO order, then a redraw of every surface, then a pause of the fixed
duration 0.0001 independent of the configured interval, then a sleep of
the configured interval; and the `while True` loop has no exit — after any
finite number of iterations a further iteration only extends the trace. -/
theorem loop_cycle_structure (animators : List AnimatorSpec) (interval : ℚ)
    (cycles : List (List Msg)) (q : List Msg) :
    run_cycleEvents animators.length interval q
      = q.map Event.dispatched ++ (List.range animators.length).map Event.drew
        ++ [Event.paused (1/10000), Event.slept interval] ∧
    run_trace animators interval (cycles ++ [q])
      = run_trace animators interval cycles
        ++ run_cycleEvents animators.length interval q ∧
    (run_trace animators interval cycles).length
      < (run_trace animators interval (cycles ++ [q])).length := by
  refine ⟨rfl, ?_, ?_⟩
  · rw [run_trace, run_trace, List.map_append, List.flatten_append]
    simp [List.append_assoc]
  · rw [run_trace, run_trace, List.map_append, List.flatten_append]
    simp [run_cycleEvents]
